import Mathlib

/-!
Verification of the LLM-visualization simulation pipeline and stage
controller (the `LLMVisualization` React component).

The pipeline functions are embedded as computable Lean functions over ℚ.
JavaScript `Number.prototype.toFixed(3)` followed by `parseFloat` is
modelled as rounding to the nearest multiple of 1/1000, ties upward
(ECMA-262 toFixed picks the larger candidate on ties).  `Math.random()`
draws and the wall-clock time are supplied by an explicit environment
`Env`, so each random quantity is an arbitrary value in its stated range.
-/

/-- `parseFloat(x.toFixed(3))`: round to 3 decimals, ties toward +∞. -/
def round3 (q : ℚ) : ℚ := ((q * 1000 + 1/2).floor : ℚ) / 1000

/-- `String.prototype.toLowerCase()` (ASCII range, as exercised here). -/
def jsToLower (s : String) : String := String.mk (s.data.map Char.toLower)

/-- The delimiter class of the regex `[\s,.!?;:'"()-]` used by
`tokenizeText`: JavaScript `\s` whitespace together with the listed
punctuation characters. -/
def isDelim (c : Char) : Bool :=
  c == ' ' || c == '\t' || c == '\n' || c == '\r' || c == '\x0b' ||
  c == '\x0c' || c == '\u00a0' || c == '\u1680' || c == '\u2000' ||
  c == '\u2001' || c == '\u2002' || c == '\u2003' || c == '\u2004' ||
  c == '\u2005' || c == '\u2006' || c == '\u2007' || c == '\u2008' ||
  c == '\u2009' || c == '\u200a' || c == '\u2028' || c == '\u2029' ||
  c == '\u202f' || c == '\u205f' || c == '\u3000' || c == '\ufeff' ||
  c == ',' || c == '.' || c == '!' || c == '?' || c == ';' || c == ':' ||
  c == '\x27' || c == '"' || c == '(' || c == ')' || c == '-'

/-- Split a character list at every delimiter character.  The source uses
`split(/[class]+/g)`, which merges adjacent delimiters into one separator;
after the `filter(word.length > 0)` step the two are equivalent, so we
split at each delimiter and let the filter drop the empty fragments. -/
def splitList (p : Char → Bool) : List Char → List (List Char)
  | [] => [[]]
  | c :: cs =>
    let rest := splitList p cs
    if p c then [] :: rest
    else (c :: rest.headI) :: rest.tail

/-- `tokenizeText`: lower-case, split on the delimiter class, drop empty
fragments (source lines 38-40). -/
def tokenizeText (text : String) : List String :=
  ((splitList isDelim (jsToLower text).data).map (fun cs => String.mk cs)).filter
    (fun word => 0 < word.length)

/-- `token.split('').reduce((acc, char) => acc + char.charCodeAt(0), 0)`. -/
def tokenHash (token : String) : ℕ := (token.data.map Char.toNat).sum

/-- An embedding record `{ token, vector }`. -/
structure Token where
  token : String
  vector : List ℚ
deriving DecidableEq, Repr

/-- Environment supplying every source of nondeterminism of the component:
the `Math.random()` draws of the attention generator with their stated
ranges, the output generator's random filler index and suffix coin, the
wall-clock time string, and the real `Math.sin` / `Math.cos` functions
(abstracted, since only their pointwise values matter). -/
structure Env where
  /-- `Math.random() * 0.1` drawn for cell `(i, j)`; lies in `[0, 1/10)`. -/
  jitter : ℕ → ℕ → ℚ
  /-- outcome of `Math.random() < 0.1` for cell `(i, j)`. -/
  longCoin : ℕ → ℕ → Bool
  /-- `Math.random() * 0.2` drawn for cell `(i, j)`; lies in `[0, 1/5)`. -/
  extra : ℕ → ℕ → ℚ
  /-- `Math.floor(Math.random() * 5)` for the filler-phrase pick. -/
  fillerIdx : Fin 5
  /-- outcome of `Math.random() > 0.5` for the long-input suffix. -/
  suffixCoin : Bool
  /-- `new Date().toLocaleTimeString()`. -/
  timeStr : String
  /-- `Math.sin`, evaluated at the rational argument of the formula. -/
  sinF : ℚ → ℚ
  /-- `Math.cos`, evaluated at the rational argument of the formula. -/
  cosF : ℚ → ℚ

/-- The fresh vector computed for a token not in the cache
(source lines 50-53): coordinate `i` is
`parseFloat((Math.sin((tokenHash + i*10)/50) * Math.cos(i/3) * 2).toFixed(3))`.
`Array.from({length: dimension})` clamps a non-positive length to `0`. -/
def freshVector (env : Env) (dimension : ℤ) (token : String) : List ℚ :=
  (List.range dimension.toNat).map fun i =>
    round3 (env.sinF (((tokenHash token : ℚ) + i * 10) / 50) *
      env.cosF ((i : ℚ) / 3) * 2)

/-- `embeddingCache.has` / `embeddingCache.get` combined: the cached vector
of a token, if present. -/
def cacheFind (token : String) : List (String × List ℚ) → Option (List ℚ)
  | [] => none
  | (k, v) :: rest => if k = token then some v else cacheFind token rest

/-- The `tokenList.map` body of `generateEmbeddings` with the explicit
`embeddingCache` map (source lines 43-56). -/
def generateEmbeddingsAux (env : Env) (dimension : ℤ) :
    List String → List (String × List ℚ) → List Token
  | [], _ => []
  | token :: rest, cache =>
    match cacheFind token cache with
    | some v => ⟨token, v⟩ :: generateEmbeddingsAux env dimension rest cache
    | none =>
      let vector := freshVector env dimension token
      ⟨token, vector⟩ ::
        generateEmbeddingsAux env dimension rest ((token, vector) :: cache)

/-- `generateEmbeddings(tokenList, dimension)` (source lines 42-57). -/
def generateEmbeddings (env : Env) (tokenList : List String) (dimension : ℤ) :
    List Token :=
  generateEmbeddingsAux env dimension tokenList []

/-- The raw weight of cell `(i, j)` before rounding (source lines 65-74):
jitter plus the first applicable bias of the if/else chain. -/
def rawWeight (env : Env) (tokenList : List String) (i j : ℕ) : ℚ :=
  let base := env.jitter i j
  if i = j then base + 7/10
  else if ((i : ℤ) - j).natAbs ≤ 1 then base + 2/10
  else if tokenList.getD i "" = tokenList.getD j "" ∧
      1 < (tokenList.getD i "").length then base + 3/10
  else if env.longCoin i j then base + env.extra i j
  else base

/-- The inner `j` loop of `generateAttentionWeights`: builds the row of
rounded weights while accumulating the sum of the *raw* weights
(source lines 62-77, `row.push(parseFloat(weight.toFixed(3))); sum += weight`). -/
def attendRow (env : Env) (tokenList : List String) (i : ℕ) : List ℚ × ℚ :=
  (List.range tokenList.length).foldl
    (fun acc j =>
      let weight := rawWeight env tokenList i j
      (acc.1 ++ [round3 weight], acc.2 + weight))
    ([], 0)

/-- `generateAttentionWeights(tokenList)` (source lines 59-81): each row is
the rounded weights, each divided by the accumulated raw sum and rounded
again. -/
def generateAttentionWeights (env : Env) (tokenList : List String) :
    List (List ℚ) :=
  (List.range tokenList.length).foldl
    (fun weights i =>
      let rs := attendRow env tokenList i
      weights ++ [rs.1.map (fun w => round3 (w / rs.2))])
    []

/-- Modelled from the claim reading of the spec sentence: round each raw
weight to 3 decimals, sum the ROUNDED row, then normalize every entry by
that rounded sum and round again — stated here only to compare with the
source's `generateAttentionWeights`, which accumulates the sum of the
raw (unrounded) weights. -/
def attendRoundedDivisor (env : Env) (tokenList : List String) :
    List (List ℚ) :=
  (List.range tokenList.length).map fun i =>
    let rounded := (List.range tokenList.length).map fun j =>
      round3 (rawWeight env tokenList i j)
    rounded.map fun w => round3 (w / rounded.sum)

/-- `needle` is an initial segment of `hay`. -/
def startsWithList : List Char → List Char → Bool
  | [], _ => true
  | _ :: _, [] => false
  | a :: as, b :: bs => a == b && startsWithList as bs

/-- `hay.includes(needle)` on character lists. -/
def hasSubList (needle : List Char) : List Char → Bool
  | [] => startsWithList needle []
  | c :: cs => startsWithList needle (c :: cs) || hasSubList needle cs

/-- `hay.includes(needle)` for strings. -/
def strIncludes (hay needle : String) : Bool := hasSubList needle.data hay.data

/-- The five filler phrases of the lexicon-miss branch (source lines 110-116). -/
def fillerPhrases : List String :=
  ["What comes next?", "Thinking about that...", "A fascinating input!",
   "Let\x27s see...", "Processing the tokens now."]

/-- `generateSimpleOutput(input, currentTokens, currentEmbeddings)`
(source lines 83-131).  `currentStep` is read from the enclosing component
scope; `currentEmbeddings` is accepted but never used, as in the source. -/
def generateSimpleOutput (env : Env) (currentStep : ℕ) (input : String)
    (currentTokens : List String) (_currentEmbeddings : List Token) : String :=
  if currentTokens.length = 0 then "Start typing to generate output..."
  else
    let lastToken := currentTokens.getD (currentTokens.length - 1) ""
    let lower := jsToLower input
    let generatedPart :=
      if strIncludes lower "hello" then "Hey there! How can I assist you today?"
      else if strIncludes lower "question" then "I\x27m ready to answer your question!"
      else if strIncludes lower "name" then "My name is LLM-Vis. What\x27s yours?"
      else if strIncludes lower "weather" then "The weather is simulated to be sunny."
      else if strIncludes lower "time" then
        "It\x27s currently " ++ env.timeStr ++ " here."
      else if 3 < currentTokens.length then
        if lastToken = "fox" then "jumps over the lazy dog."
        else if lastToken = "quick" then "brown fox jumps."
        else if lastToken = "brown" then "fox is fast."
        else if lastToken = "apple" then "is a delicious fruit."
        else if lastToken = "cat" then "sits quietly."
        else if lastToken = "dog" then "barks loudly."
        else if lastToken = "computer" then "is a powerful tool."
        else if lastToken = "data" then "is the new oil."
        else "... and then " ++ lastToken ++ " leads to: " ++
          fillerPhrases.getD env.fillerIdx.val ""
      else "Please provide more context."
    if currentTokens.length < 3 ∧ currentStep = 4 then
      "Input is a bit short. Could you elaborate?"
    else if 7 < currentTokens.length ∧ env.suffixCoin then
      generatedPart ++ " A lot to think about!"
    else generatedPart

/-- The `PipelineState` aggregate owned by the component: the `useState`
cells plus `pendingTimer`, which records whether a stage-advance
`setTimeout` is currently scheduled (a cleaned-up effect has none). -/
structure PipelineState where
  currentStep : ℕ
  isPlaying : Bool
  inputText : String
  tokens : List String
  embeddings : List Token
  attentionWeights : List (List ℚ)
  output : String
  animationSpeed : ℤ
  embeddingDimension : ℤ
  pendingTimer : Bool
deriving Repr

/-- The initial `useState` values (source lines 18-26); no timer pending. -/
def initState : PipelineState :=
  { currentStep := 0, isPlaying := false, inputText := "The quick brown fox",
    tokens := [], embeddings := [], attentionWeights := [], output := "",
    animationSpeed := 2000, embeddingDimension := 8, pendingTimer := false }

/-- The recomputation effect (source lines 154-176): tokens are always
recomputed; embeddings, attention and output are recomputed only at or
beyond their stage, and cleared otherwise.  `generateSimpleOutput` is
passed the pre-update `embeddings` state, as in the source closure. -/
def recompute (env : Env) (s : PipelineState) : PipelineState :=
  let tokenList := tokenizeText s.inputText
  { s with
    tokens := tokenList
    embeddings :=
      if 2 ≤ s.currentStep then generateEmbeddings env tokenList s.embeddingDimension
      else []
    attentionWeights :=
      if 3 ≤ s.currentStep then generateAttentionWeights env tokenList
      else []
    output :=
      if 4 ≤ s.currentStep then
        generateSimpleOutput env s.currentStep s.inputText tokenList s.embeddings
      else "" }

/-- The advance-timer effect (source lines 133-143): its cleanup cancels
any previous timer, it schedules a fresh advance exactly when playing
below the last stage, and reaching the last stage clears `isPlaying`. -/
def timerEffect (s : PipelineState) : PipelineState :=
  { s with
    pendingTimer := if s.currentStep < 4 then s.isPlaying else false
    isPlaying := if s.currentStep = 4 then false else s.isPlaying }

/-- The events accepted at the component boundary: the input field, the
play/pause toggle, the reset button, a click on a stage, the two range
controls, and the expiry of a scheduled advance timer. -/
inductive Event where
  | setInputText (text : String)
  | playPause
  | reset
  | seek (stepIndex : ℕ)
  | setTickInterval (ms : ℤ)
  | setEmbeddingDimension (n : ℤ)
  | tick

/-- The event handlers (source lines 178-210).  `tick` fires a scheduled
advance; with no timer pending it is a no-op (a cancelled timeout never
runs its callback). -/
def applyEvent : Event → PipelineState → PipelineState
  | .setInputText text, s =>
    { s with inputText := text, currentStep := 0, isPlaying := false }
  | .playPause, s =>
    if s.isPlaying = false ∧ s.currentStep = 4 then
      { s with currentStep := 0, isPlaying := true }
    else { s with isPlaying := !s.isPlaying }
  | .reset, s =>
    { s with currentStep := 0, isPlaying := false, inputText := "The quick brown fox" }
  | .seek i, s => { s with currentStep := i, isPlaying := false }
  | .setTickInterval ms, s => { s with animationSpeed := ms }
  | .setEmbeddingDimension n, s => { s with embeddingDimension := n }
  | .tick, s =>
    if s.pendingTimer then
      { s with currentStep := s.currentStep + 1, pendingTimer := false }
    else s

/-- One controller step: handle the event, then run the synchronous
effects (recomputation, then the timer effect) before the state is
considered current. -/
def stepFn (env : Env) (e : Event) (s : PipelineState) : PipelineState :=
  timerEffect (recompute env (applyEvent e s))

/-- States reachable from the initial render (mount effects included)
via accepted events and timer expiries. -/
inductive Reachable : PipelineState → Prop where
  | init (env : Env) : Reachable (timerEffect (recompute env initState))
  | step (env : Env) (e : Event) {s : PipelineState} :
      Reachable s → Reachable (stepFn env e s)

/-- A concrete environment: every random draw is `0` / `false`, the
trigonometric oracles are constantly `0`. -/
def env0 : Env :=
  { jitter := fun _ _ => 0, longCoin := fun _ _ => false,
    extra := fun _ _ => 0, fillerIdx := 0, suffixCoin := false,
    timeStr := "", sinF := fun _ => 0, cosF := fun _ => 0 }

/-- Environment whose attention jitter is `0.000494` everywhere — an
admissible `Math.random() * 0.1` outcome. -/
def envC1 : Env := { env0 with jitter := fun _ _ => 247/500000 }

/-- Environment whose attention jitter is `0.0004` everywhere — an
admissible `Math.random() * 0.1` outcome. -/
def envC7 : Env := { env0 with jitter := fun _ _ => 1/2500 }

/-- `round3` through Mathlib's `Int.floor`, for `norm_num` evaluation. -/
lemma round3_eq (q : ℚ) : round3 q = (⌊q * 1000 + 1/2⌋ : ℚ) / 1000 := by
  unfold round3
  norm_cast

/-! ## Tokenizer properties -/

lemma splitList_ne_nil (p : Char → Bool) (l : List Char) : splitList p l ≠ [] := by
  cases l with
  | nil => simp [splitList]
  | cons c cs =>
    simp only [splitList]
    split <;> simp

lemma mem_splitList (p : Char → Bool) :
    ∀ (l : List Char), ∀ frag ∈ splitList p l, ∀ c ∈ frag, p c = false := by
  intro l
  induction l with
  | nil =>
    intro frag hf c hc
    simp [splitList] at hf
    subst hf
    simp at hc
  | cons a as ih =>
    intro frag hf c hc
    cases hpa : p a with
    | true =>
      simp only [splitList, hpa, if_pos] at hf
      rcases List.mem_cons.mp hf with rfl | hfm
      · simp at hc
      · exact ih frag hfm c hc
    | false =>
      simp only [splitList, hpa, Bool.false_eq_true, if_neg, not_false_iff] at hf
      cases hrest : splitList p as with
      | nil => exact absurd hrest (splitList_ne_nil p as)
      | cons r rs =>
        rw [hrest] at hf
        simp only [List.headI, List.tail] at hf
        rcases List.mem_cons.mp hf with rfl | hfm
        · rcases List.mem_cons.mp hc with rfl | hcr
          · exact hpa
          · exact ih r (hrest ▸ List.mem_cons_self r rs) c hcr
        · exact ih frag (hrest ▸ List.mem_cons_of_mem r hfm) c hc

/-- C3: `tokenizeText` lower-cases its input, splits it on the
whitespace-and-punctuation delimiter class, and discards empty fragments,
preserving first-occurrence order with no deduplication: every produced
token is nonempty and contains no delimiter character, the canonical
example yields `["the", "quick", "brown", "fox"]`, and a repeated word is
kept twice. -/
theorem tokenizeText_spec :
    tokenizeText "The quick brown fox" = ["the", "quick", "brown", "fox"] ∧
    tokenizeText "the, the!" = ["the", "the"] ∧
    ∀ text : String, ∀ tok ∈ tokenizeText text,
      0 < tok.length ∧ ∀ c ∈ tok.data, isDelim c = false := by
  refine ⟨by decide, by decide, ?_⟩
  intro text tok htok
  unfold tokenizeText at htok
  rw [List.mem_filter] at htok
  obtain ⟨hmem, hlen⟩ := htok
  rw [List.mem_map] at hmem
  obtain ⟨frag, hfrag, rfl⟩ := hmem
  exact ⟨of_decide_eq_true hlen, fun c hc => mem_splitList isDelim _ frag hfrag c hc⟩

/-- Witness for `tokenizeText_spec` at the text `"ab- cd"` and its first
token `"ab"`. -/
theorem tokenizeText_spec_witness : 0 < "ab".length ∧ isDelim 'a' = false :=
  have h := tokenizeText_spec.2.2 "ab- cd" "ab" (by decide)
  ⟨h.1, h.2 'a' (by decide)⟩

/-! ## Embedding generator properties -/

lemma generateEmbeddingsAux_tokens (env : Env) (d : ℤ) :
    ∀ (l : List String) (cache : List (String × List ℚ)),
      (generateEmbeddingsAux env d l cache).map Token.token = l := by
  intro l
  induction l with
  | nil => intro cache; rfl
  | cons t rest ih =>
    intro cache
    cases h : cacheFind t cache with
    | some v => simp [generateEmbeddingsAux, h, ih]
    | none => simp [generateEmbeddingsAux, h, ih]

lemma cacheFind_mem {t : String} {v : List ℚ} :
    ∀ {cache : List (String × List ℚ)}, cacheFind t cache = some v →
      (t, v) ∈ cache := by
  intro cache
  induction cache with
  | nil => intro h; simp [cacheFind] at h
  | cons p rest ih =>
    intro h
    obtain ⟨k, w⟩ := p
    rw [cacheFind] at h
    split at h
    · next heq =>
      obtain rfl := Option.some.inj h
      subst heq
      exact List.mem_cons_self _ _
    · next => exact List.mem_cons_of_mem _ (ih h)

lemma generateEmbeddingsAux_vector (env : Env) (d : ℤ) :
    ∀ (l : List String) (cache : List (String × List ℚ)),
      (∀ p ∈ cache, p.2 = freshVector env d p.1) →
      ∀ r ∈ generateEmbeddingsAux env d l cache,
        r.vector = freshVector env d r.token := by
  intro l
  induction l with
  | nil => intro cache _ r hr; simp [generateEmbeddingsAux] at hr
  | cons t rest ih =>
    intro cache hcache r hr
    cases h : cacheFind t cache with
    | some v =>
      simp only [generateEmbeddingsAux, h] at hr
      rcases List.mem_cons.mp hr with rfl | hr2
      · simpa using hcache (t, v) (cacheFind_mem h)
      · exact ih cache hcache r hr2
    | none =>
      simp only [generateEmbeddingsAux, h] at hr
      rcases List.mem_cons.mp hr with rfl | hr2
      · rfl
      · refine ih _ ?_ r hr2
        intro p hp
        rcases List.mem_cons.mp hp with rfl | hp2
        · rfl
        · exact hcache p hp2

/-- C2: for any single token and positive dimension, `generateEmbeddings`
returns exactly the record whose coordinate `i` is
`round3(sin((hash + i*10)/50) * cos(i/3) * 2)` with `hash` the sum of the
token's character codes — the result is a pure function of the token, the
dimension and the fixed trigonometric oracles, with no random input. -/
theorem embed_single_formula (env : Env) (t : String) (d : ℤ) (_hd : 1 ≤ d) :
    generateEmbeddings env [t] d =
      [⟨t, (List.range d.toNat).map fun i =>
        round3 (env.sinF (((tokenHash t : ℚ) + i * 10) / 50) *
          env.cosF ((i : ℚ) / 3) * 2)⟩] := rfl

/-- Witness for `embed_single_formula` at `"fox"` with dimension `8`. -/
theorem embed_single_formula_witness :
    (1 : ℤ) ≤ 8 ∧
    generateEmbeddings env0 ["fox"] 8 =
      [⟨"fox", (List.range (8 : ℤ).toNat).map fun i =>
        round3 (env0.sinF (((tokenHash "fox" : ℚ) + i * 10) / 50) *
          env0.cosF ((i : ℚ) / 3) * 2)⟩] :=
  ⟨by decide, embed_single_formula env0 "fox" 8 (by decide)⟩

/-- C4: `generateEmbeddings` yields one record per input token in input
order (record `i` carries token `i`), and any two records with equal token
strings carry identical vectors — duplicates reuse the cached vector. -/
theorem embed_records (env : Env) (tokenList : List String) (d : ℤ) :
    (generateEmbeddings env tokenList d).map Token.token = tokenList ∧
    ∀ r ∈ generateEmbeddings env tokenList d,
      ∀ r2 ∈ generateEmbeddings env tokenList d,
        r.token = r2.token → r.vector = r2.vector := by
  refine ⟨generateEmbeddingsAux_tokens env d tokenList [], ?_⟩
  intro r hr r2 hr2 htok
  have h1 := generateEmbeddingsAux_vector env d tokenList [] (by simp) r hr
  have h2 := generateEmbeddingsAux_vector env d tokenList [] (by simp) r2 hr2
  rw [h1, h2, htok]

/-- Witness for `embed_records` on the duplicated list `["a", "a"]`. -/
theorem embed_records_witness :
    (generateEmbeddings env0 ["a", "a"] 0).map Token.token = ["a", "a"] ∧
    (⟨"a", []⟩ : Token).vector = (⟨"a", []⟩ : Token).vector :=
  ⟨(embed_records env0 ["a", "a"] 0).1,
   (embed_records env0 ["a", "a"] 0).2 ⟨"a", []⟩ (by decide) ⟨"a", []⟩ (by decide)
     (by decide)⟩

/-- C10: with a non-positive dimension, `generateEmbeddings` still returns
normally, one record per token, each with the empty vector — the
[4, 20] bounds of the range control are not enforced inside the
component. -/
theorem embed_nonpositive_dimension (env : Env) (tokenList : List String)
    (d : ℤ) (hd : d ≤ 0) :
    (generateEmbeddings env tokenList d).map Token.token = tokenList ∧
    ∀ r ∈ generateEmbeddings env tokenList d, r.vector = [] := by
  refine ⟨generateEmbeddingsAux_tokens env d tokenList [], ?_⟩
  intro r hr
  have h := generateEmbeddingsAux_vector env d tokenList [] (by simp) r hr
  rw [h]
  simp [freshVector, Int.toNat_of_nonpos hd]

/-- Witness for `embed_nonpositive_dimension` at dimension `-1`. -/
theorem embed_nonpositive_dimension_witness :
    (generateEmbeddings env0 ["a"] (-1)).map Token.token = ["a"] ∧
    ((generateEmbeddings env0 ["a"] (-1)).getD 0 ⟨"", []⟩).vector = [] :=
  ⟨(embed_nonpositive_dimension env0 ["a"] (-1) (by decide)).1,
   (embed_nonpositive_dimension env0 ["a"] (-1) (by decide)).2 _ (by decide)⟩

/-! ## Output generator: empty input and keyword branches -/

/-- C8: the empty-input boundary: tokenizing the empty string yields no
tokens, the attention matrix of no tokens is empty, and output generation
with no tokens is the fixed start-typing message for every input string,
stage and environment; all three are total functions. -/
theorem emptyInput_boundary :
    tokenizeText "" = [] ∧
    (∀ env : Env, generateAttentionWeights env [] = []) ∧
    ∀ (env : Env) (currentStep : ℕ) (input : String) (embs : List Token),
      generateSimpleOutput env currentStep input [] embs =
        "Start typing to generate output..." :=
  ⟨rfl, fun _ => rfl, fun _ _ _ _ => rfl⟩

/-! ## Output generator: the name-keyword branch -/

/-- C5 counterexample: `"Your name?"` contains `"name"` (and neither
`"hello"` nor `"question"`), tokenizes to two tokens, yet at the terminal
stage (`currentStep = 4`) the short-input override replaces the
name-branch canned reply. -/
theorem output_name_keyword_cex :
    strIncludes (jsToLower "Your name?") "name" = true ∧
    strIncludes (jsToLower "Your name?") "hello" = false ∧
    strIncludes (jsToLower "Your name?") "question" = false ∧
    tokenizeText "Your name?" = ["your", "name"] ∧
    generateSimpleOutput env0 4 "Your name?" ["your", "name"] [] =
      "Input is a bit short. Could you elaborate?" ∧
    generateSimpleOutput env0 4 "Your name?" ["your", "name"] [] ≠
      "My name is LLM-Vis. What\x27s yours?" :=
  ⟨by decide, by decide, by decide, by decide, by decide, by decide⟩

/-- C5 (amended): when the lower-cased input contains `"name"` but neither
`"hello"` nor `"question"` and the token list is non-empty, the output is
the name-branch canned reply, except that with fewer than 3 tokens at the
terminal stage the short-input override is returned instead, and with more
than 7 tokens the random suffix may be appended. -/
theorem output_name_keyword (env : Env) (currentStep : ℕ) (input : String)
    (tokens : List String) (embs : List Token)
    (hname : strIncludes (jsToLower input) "name" = true)
    (hhello : strIncludes (jsToLower input) "hello" = false)
    (hq : strIncludes (jsToLower input) "question" = false)
    (hne : tokens ≠ []) :
    generateSimpleOutput env currentStep input tokens embs =
      if tokens.length < 3 ∧ currentStep = 4 then
        "Input is a bit short. Could you elaborate?"
      else if 7 < tokens.length ∧ env.suffixCoin then
        "My name is LLM-Vis. What\x27s yours?" ++ " A lot to think about!"
      else "My name is LLM-Vis. What\x27s yours?" := by
  have h0 : ¬ tokens.length = 0 := by simpa using hne
  simp only [generateSimpleOutput, h0, if_false, hname, hhello, hq,
    Bool.false_eq_true, if_true]

/-- Witness for `output_name_keyword` at `"name"` with three tokens below
the terminal stage. -/
theorem output_name_keyword_witness :
    generateSimpleOutput env0 0 "name" ["my", "name", "is"] [] =
      if (["my", "name", "is"] : List String).length < 3 ∧ 0 = 4 then
        "Input is a bit short. Could you elaborate?"
      else if 7 < (["my", "name", "is"] : List String).length ∧ env0.suffixCoin then
        "My name is LLM-Vis. What\x27s yours?" ++ " A lot to think about!"
      else "My name is LLM-Vis. What\x27s yours?" :=
  output_name_keyword env0 0 "name" ["my", "name", "is"] []
    (by decide) (by decide) (by decide) (by decide)

/-! ## Attention generator: structure of rows -/

lemma foldl_push {α β : Type} (f : α → β) (l : List α) (acc : List β) :
    l.foldl (fun a x => a ++ [f x]) acc = acc ++ l.map f := by
  induction l generalizing acc with
  | nil => simp
  | cons h t ih => simp [ih]

lemma attendRow_eq (env : Env) (tl : List String) (i : ℕ) :
    attendRow env tl i =
      ((List.range tl.length).map fun j => round3 (rawWeight env tl i j),
       ((List.range tl.length).map fun j => rawWeight env tl i j).sum) := by
  suffices h : ∀ (l : List ℕ) (a : List ℚ) (b : ℚ),
      (l.foldl (fun acc j =>
        (acc.1 ++ [round3 (rawWeight env tl i j)], acc.2 + rawWeight env tl i j))
        (a, b)) =
        (a ++ l.map fun j => round3 (rawWeight env tl i j),
         b + (l.map fun j => rawWeight env tl i j).sum) by
    simpa [attendRow] using h (List.range tl.length) [] 0
  intro l
  induction l with
  | nil => intro a b; simp
  | cons x xs ih => intro a b; simp [ih, add_assoc]

lemma generateAttentionWeights_map (env : Env) (tl : List String) :
    generateAttentionWeights env tl =
      (List.range tl.length).map fun i =>
        (attendRow env tl i).1.map fun w => round3 (w / (attendRow env tl i).2) := by
  simpa [generateAttentionWeights] using
    foldl_push
      (fun i => (attendRow env tl i).1.map fun w => round3 (w / (attendRow env tl i).2))
      (List.range tl.length) []

lemma generateAttentionWeights_entry (env : Env) (tl : List String) :
    generateAttentionWeights env tl =
      (List.range tl.length).map fun i =>
        (List.range tl.length).map fun j =>
          round3 (round3 (rawWeight env tl i j) /
            ((List.range tl.length).map fun k => rawWeight env tl i k).sum) := by
  rw [generateAttentionWeights_map]
  simp [attendRow_eq, List.map_map, Function.comp]

lemma getD_map_range {α : Type} {f : ℕ → α} {n i : ℕ} (hi : i < n) (d : α) :
    ((List.range n).map f).getD i d = f i := by
  rw [List.getD_eq_getElem?_getD, List.getElem?_map, List.getElem?_range hi]
  rfl

/-- C7 (amended): entry `(i, j)` of the attention matrix is the rounded
weight divided by the sum of the *raw* (unrounded) weights of row `i`,
rounded again — the source accumulates `sum += weight` before rounding,
so the divisor is the raw row sum, not the sum of the rounded weights. -/
theorem attend_rawSum_divisor (env : Env) (tokenList : List String) (i j : ℕ)
    (hi : i < tokenList.length) (hj : j < tokenList.length) :
    ((generateAttentionWeights env tokenList).getD i []).getD j 0 =
      round3 (round3 (rawWeight env tokenList i j) /
        ((List.range tokenList.length).map fun k => rawWeight env tokenList i k).sum) := by
  rw [generateAttentionWeights_entry, getD_map_range hi, getD_map_range hj]

/-- Witness for `attend_rawSum_divisor` at the single token `"a"`. -/
theorem attend_rawSum_divisor_witness :
    ((generateAttentionWeights env0 ["a"]).getD 0 []).getD 0 0 =
      round3 (round3 (rawWeight env0 ["a"] 0 0) /
        ((List.range (["a"] : List String).length).map
          fun k => rawWeight env0 ["a"] 0 k).sum) :=
  attend_rawSum_divisor env0 ["a"] 0 0 (by decide) (by decide)

/-- C7 counterexample: with one token and jitter `0.0004`, the raw weight
is `0.7004` and rounds to `0.700`; the source divides by the raw sum
`0.7004` and returns `0.999`, whereas dividing by the sum of the rounded
weights (`0.700`) would return `1.0`. -/
theorem attend_divisor_cex :
    generateAttentionWeights envC7 ["a"] = [[999/1000]] ∧
    attendRoundedDivisor envC7 ["a"] = [[1]] ∧
    generateAttentionWeights envC7 ["a"] ≠ attendRoundedDivisor envC7 ["a"] := by
  have h1 : generateAttentionWeights envC7 ["a"] = [[999/1000]] := by
    simp [generateAttentionWeights, attendRow, rawWeight, envC7, env0,
      List.range_succ, round3_eq]
    norm_num
  have h2 : attendRoundedDivisor envC7 ["a"] = [[1]] := by
    simp [attendRoundedDivisor, rawWeight, envC7, env0, List.range_succ, round3_eq]
    norm_num
  refine ⟨h1, h2, ?_⟩
  rw [h1, h2]
  simp
  norm_num

/-! ## Stage controller: gating and timer invariants -/

lemma post_effects (env : Env) (x : PipelineState) :
    (timerEffect (recompute env x)).tokens =
      tokenizeText (timerEffect (recompute env x)).inputText ∧
    ((timerEffect (recompute env x)).currentStep < 2 →
      (timerEffect (recompute env x)).embeddings = []) ∧
    ((timerEffect (recompute env x)).currentStep < 3 →
      (timerEffect (recompute env x)).attentionWeights = []) ∧
    ((timerEffect (recompute env x)).currentStep < 4 →
      (timerEffect (recompute env x)).output = "") := by
  refine ⟨rfl, fun h => ?_, fun h => ?_, fun h => ?_⟩ <;>
    simp only [timerEffect, recompute] at h ⊢ <;>
    rw [if_neg (by omega)]

/-- C6: in every reachable controller state, after the synchronous
recomputation, `tokens` equals `tokenizeText inputText`, and the
embeddings, attention and output artifacts are empty unless the current
stage has reached Embeddings(2), Attention(3), Generation(4)
respectively — never stale. -/
theorem stage_gating (s : PipelineState) (hs : Reachable s) :
    s.tokens = tokenizeText s.inputText ∧
    (s.currentStep < 2 → s.embeddings = []) ∧
    (s.currentStep < 3 → s.attentionWeights = []) ∧
    (s.currentStep < 4 → s.output = "") := by
  induction hs with
  | init env => exact post_effects env initState
  | @step env e s2 _ _ => exact post_effects env (applyEvent e s2)

/-- Witness for `stage_gating` at the post-mount initial state. -/
theorem stage_gating_witness :
    (timerEffect (recompute env0 initState)).tokens =
      tokenizeText (timerEffect (recompute env0 initState)).inputText ∧
    ((timerEffect (recompute env0 initState)).currentStep < 2 →
      (timerEffect (recompute env0 initState)).embeddings = []) ∧
    ((timerEffect (recompute env0 initState)).currentStep < 3 →
      (timerEffect (recompute env0 initState)).attentionWeights = []) ∧
    ((timerEffect (recompute env0 initState)).currentStep < 4 →
      (timerEffect (recompute env0 initState)).output = "") :=
  stage_gating _ (Reachable.init env0)

lemma timerEffect_pending (x : PipelineState) :
    (timerEffect x).isPlaying = false → (timerEffect x).pendingTimer = false := by
  simp only [timerEffect]
  intro h
  split_ifs with h4
  · rw [if_neg (by omega)] at h
    exact h
  · rfl

lemma reachable_pending {s : PipelineState} (hs : Reachable s) :
    s.isPlaying = false → s.pendingTimer = false := by
  cases hs with
  | init env => exact timerEffect_pending _
  | step env e hs => exact timerEffect_pending _

/-- C9: in every reachable state with `playing` off, no advance is
scheduled and a timer expiry leaves the stage unchanged; pausing from a
playing state, resetting, and seeking all leave `playing` off, so any
advance pending before those events can never fire afterwards. -/
theorem timer_cancellation (env : Env) (s : PipelineState) (hs : Reachable s) :
    (s.isPlaying = false →
      s.pendingTimer = false ∧
      ∀ env2 : Env, (stepFn env2 Event.tick s).currentStep = s.currentStep) ∧
    (s.isPlaying = true → (stepFn env Event.playPause s).isPlaying = false) ∧
    (stepFn env Event.reset s).isPlaying = false ∧
    ∀ i, (stepFn env (Event.seek i) s).isPlaying = false := by
  refine ⟨fun hp => ⟨reachable_pending hs hp, fun env2 => ?_⟩, fun hp => ?_, ?_, fun i => ?_⟩
  · simp [stepFn, applyEvent, reachable_pending hs hp, timerEffect, recompute]
  · simp [stepFn, applyEvent, hp, timerEffect, recompute]
  · simp [stepFn, applyEvent, timerEffect, recompute]
  · simp [stepFn, applyEvent, timerEffect, recompute]

/-- Witness for `timer_cancellation` at the post-mount initial state. -/
theorem timer_cancellation_witness :
    (timerEffect (recompute env0 initState)).pendingTimer = false ∧
    (stepFn env0 Event.tick (timerEffect (recompute env0 initState))).currentStep =
      (timerEffect (recompute env0 initState)).currentStep :=
  have h := (timer_cancellation env0 _ (Reachable.init env0)).1 rfl
  ⟨h.1, h.2 env0⟩

/-! ## Attention generator: non-negativity and row sums -/

lemma round3_le (q : ℚ) : round3 q ≤ q + 1/2000 := by
  rw [round3_eq]
  have h := Int.floor_le (q * 1000 + 1/2)
  calc (⌊q * 1000 + 1/2⌋ : ℚ) / 1000 ≤ (q * 1000 + 1/2) / 1000 := by gcongr
    _ = q + 1/2000 := by ring

lemma lt_round3 (q : ℚ) : q - 1/2000 < round3 q := by
  rw [round3_eq]
  have h := Int.sub_one_lt_floor (q * 1000 + 1/2)
  have h2 : (q * 1000 - 1/2) / 1000 < (⌊q * 1000 + 1/2⌋ : ℚ) / 1000 := by
    gcongr
    linarith
  calc q - 1/2000 = (q * 1000 - 1/2) / 1000 := by ring
    _ < _ := h2

lemma round3_sub_abs (q : ℚ) : |round3 q - q| ≤ 1/2000 :=
  abs_le.mpr ⟨by linarith [lt_round3 q], by linarith [round3_le q]⟩

lemma round3_nonneg {q : ℚ} (h : 0 ≤ q) : 0 ≤ round3 q := by
  rw [round3_eq]
  apply div_nonneg _ (by norm_num)
  exact_mod_cast Int.le_floor.mpr (by push_cast; linarith)

lemma rawWeight_nonneg (env : Env) (tl : List String) (i j : ℕ)
    (hj : 0 ≤ env.jitter i j) (he : 0 ≤ env.extra i j) :
    0 ≤ rawWeight env tl i j := by
  simp only [rawWeight]
  split_ifs <;> linarith

lemma rawWeight_diag_ge (env : Env) (tl : List String) (i : ℕ)
    (hj : 0 ≤ env.jitter i i) : 7/10 ≤ rawWeight env tl i i := by
  simp [rawWeight]
  linarith

lemma sum_rawWeight_ge (env : Env) (tl : List String) (i : ℕ)
    (hi : i < tl.length)
    (hj : ∀ a b, 0 ≤ env.jitter a b) (he : ∀ a b, 0 ≤ env.extra a b) :
    7/10 ≤ ((List.range tl.length).map fun j => rawWeight env tl i j).sum := by
  have hmem : rawWeight env tl i i ∈
      (List.range tl.length).map (fun j => rawWeight env tl i j) :=
    List.mem_map_of_mem _ (List.mem_range.mpr hi)
  have hpos : ∀ x ∈ (List.range tl.length).map (fun j => rawWeight env tl i j),
      0 ≤ x := by
    intro x hx
    obtain ⟨j, _, rfl⟩ := List.mem_map.mp hx
    exact rawWeight_nonneg env tl i j (hj i j) (he i j)
  have h1 := List.single_le_sum hpos _ hmem
  linarith [rawWeight_diag_ge env tl i (hj i i)]

lemma sum_range_abs_le (f g : ℕ → ℚ) (c : ℚ) :
    ∀ n : ℕ, (∀ j, j < n → |f j - g j| ≤ c) →
      |((List.range n).map f).sum - ((List.range n).map g).sum| ≤ n * c := by
  intro n
  induction n with
  | zero => intro _; simp
  | succ n ih =>
    intro h
    rw [List.range_succ]
    simp only [List.map_append, List.sum_append, List.map_cons, List.sum_cons,
      List.map_nil, List.sum_nil, add_zero]
    have h1 := ih (fun j hj => h j (Nat.lt_succ_of_lt hj))
    have h2 := h n (Nat.lt_succ_self n)
    rw [show ((List.range n).map f).sum + f n - (((List.range n).map g).sum + g n) =
      (((List.range n).map f).sum - ((List.range n).map g).sum) + (f n - g n) by ring]
    refine le_trans (abs_add _ _) ?_
    push_cast
    linarith

lemma sum_map_div (f : ℕ → ℚ) (S : ℚ) (l : List ℕ) :
    (l.map fun j => f j / S).sum = (l.map f).sum / S := by
  induction l with
  | nil => simp
  | cons x xs ih => simp [ih, add_div]

lemma round3_div_close (w S : ℚ) (hS : 7/10 ≤ S) :
    |round3 (round3 w / S) - w / S| ≤ 17/14000 := by
  have hS0 : 0 < S := by linarith
  have h1 := round3_sub_abs (round3 w / S)
  have h2 : |round3 w / S - w / S| ≤ 1/1400 := by
    rw [div_sub_div_same, abs_div, abs_of_pos hS0]
    rw [div_le_iff₀ hS0]
    calc |round3 w - w| ≤ 1/2000 := round3_sub_abs w
      _ = (1/1400) * (7/10) := by norm_num
      _ ≤ (1/1400) * S := by gcongr
  calc |round3 (round3 w / S) - w / S|
      = |(round3 (round3 w / S) - round3 w / S) + (round3 w / S - w / S)| := by
        ring_nf
    _ ≤ |round3 (round3 w / S) - round3 w / S| + |round3 w / S - w / S| :=
        abs_add _ _
    _ ≤ 1/2000 + 1/1400 := add_le_add h1 h2
    _ = 17/14000 := by norm_num

/-- C1 (amended): for jitter and long-range draws in their stated ranges
and at least one token, `generateAttentionWeights` returns an n-by-n
matrix with every entry non-negative, and every row's sum within
`±(17/14000)·n` (≈ 0.00121·n) of 1; the fixed ±0.001 tolerance of the
claim fails once n ≥ 3 (see the counterexample). -/
theorem attend_row_stochastic (env : Env) (tokenList : List String)
    (hjit : ∀ a b, 0 ≤ env.jitter a b ∧ env.jitter a b < 1/10)
    (hext : ∀ a b, 0 ≤ env.extra a b ∧ env.extra a b < 1/5)
    (_hn : 1 ≤ tokenList.length) :
    (generateAttentionWeights env tokenList).length = tokenList.length ∧
    ∀ row ∈ generateAttentionWeights env tokenList,
      row.length = tokenList.length ∧ (∀ x ∈ row, 0 ≤ x) ∧
      |row.sum - 1| ≤ tokenList.length * (17/14000) := by
  have hj : ∀ a b, 0 ≤ env.jitter a b := fun a b => (hjit a b).1
  have he : ∀ a b, 0 ≤ env.extra a b := fun a b => (hext a b).1
  rw [generateAttentionWeights_entry]
  constructor
  · simp
  · intro row hrow
    obtain ⟨i, hi, rfl⟩ := List.mem_map.mp hrow
    rw [List.mem_range] at hi
    set S := ((List.range tokenList.length).map
      fun k => rawWeight env tokenList i k).sum with hSdef
    have hS : 7/10 ≤ S := sum_rawWeight_ge env tokenList i hi hj he
    have hS0 : 0 < S := by linarith
    refine ⟨by simp, ?_, ?_⟩
    · intro x hx
      obtain ⟨j, _, rfl⟩ := List.mem_map.mp hx
      exact round3_nonneg (div_nonneg
        (round3_nonneg (rawWeight_nonneg env tokenList i j (hj i j) (he i j)))
        hS0.le)
    · have hone : ((List.range tokenList.length).map
          fun j => rawWeight env tokenList i j / S).sum = 1 := by
        rw [sum_map_div]
        exact div_self (ne_of_gt hS0)
      have hb := sum_range_abs_le
        (fun j => round3 (round3 (rawWeight env tokenList i j) / S))
        (fun j => rawWeight env tokenList i j / S) (17/14000) tokenList.length
        (fun j _ => round3_div_close _ _ hS)
      rw [hone] at hb
      exact hb

/-- Witness for `attend_row_stochastic` at one token with zero jitter:
the matrix is 1-by-1 and its row `[1]` satisfies all three conclusions. -/
theorem attend_row_stochastic_witness :
    ([1] : List ℚ).length = (["a"] : List String).length ∧
    (∀ x ∈ ([1] : List ℚ), 0 ≤ x) ∧
    |([1] : List ℚ).sum - 1| ≤ (["a"] : List String).length * (17/14000) := by
  have hM : generateAttentionWeights env0 ["a"] = [[1]] := by
    simp [generateAttentionWeights, attendRow, rawWeight, env0,
      List.range_succ, round3_eq]
    norm_num
  exact (attend_row_stochastic env0 ["a"]
    (fun a b => by constructor <;> norm_num [env0])
    (fun a b => by constructor <;> norm_num [env0]) (by decide)).2 [1]
    (by rw [hM]; exact List.mem_singleton_self _)

/-- C1 counterexample: with the admissible jitter `0.000494` in every
cell and the three distinct tokens `["a", "b", "c"]`, the first row of
the matrix sums to `0.998`, which is outside the claimed `±0.001`
tolerance — the per-entry roundings can drift the row sum by more than
0.001 once the matrix has three or more columns. -/
theorem attend_row_stochastic_cex :
    ¬ (∀ (env : Env) (tokenList : List String),
        (∀ a b, 0 ≤ env.jitter a b ∧ env.jitter a b < 1/10) →
        (∀ a b, 0 ≤ env.extra a b ∧ env.extra a b < 1/5) →
        1 ≤ tokenList.length →
        ∀ row ∈ generateAttentionWeights env tokenList,
          |row.sum - 1| ≤ 1/1000) := by
  intro hclaim
  have hsum : (generateAttentionWeights envC1 ["a", "b", "c"]).headI.sum =
      499/500 := by
    simp [generateAttentionWeights, attendRow, rawWeight, envC1, env0,
      List.range_succ, round3_eq]
    norm_num
  have hne : generateAttentionWeights envC1 ["a", "b", "c"] ≠ [] := by
    rw [generateAttentionWeights_entry]
    simp
  obtain ⟨r, rest, hM⟩ := List.exists_cons_of_ne_nil hne
  have hmem : (generateAttentionWeights envC1 ["a", "b", "c"]).headI ∈
      generateAttentionWeights envC1 ["a", "b", "c"] := by
    rw [hM]
    simp
  have h := hclaim envC1 ["a", "b", "c"]
    (fun a b => by constructor <;> norm_num [envC1, env0])
    (fun a b => by constructor <;> norm_num [envC1, env0]) (by decide) _ hmem
  rw [hsum] at h
  rw [show (499 : ℚ)/500 - 1 = -(1/500) by norm_num, abs_neg,
    abs_of_nonneg (by norm_num : (0:ℚ) ≤ 1/500)] at h
  norm_num at h
